import Mathlib

/-!
Verification of the Haraj scraping pipeline (haraj_scraper_selenium.py,
dashboard.py) against its natural-language specification.  Strings are
embedded as `List Char`; the browser DOM is an oracle supplied as data
(the texts and hrefs each query of the source would return); regular
expressions are translated to explicit scanners with Python's
leftmost-match and greedy-quantifier semantics.
-/

/-! ## Shared string helpers -/

/-- ASCII whitespace recognised by Python's default `str.strip()` and by
the regex class `\s`. -/
def isPySpace (c : Char) : Bool :=
  c = ' ' || c = '\t' || c = '\n' || c = '\r' || c = '\x0B' || c = '\x0C'

/-- Python `s.strip()`: drop leading and trailing whitespace. -/
def pyStrip (s : List Char) : List Char :=
  ((s.dropWhile isPySpace).reverse.dropWhile isPySpace).reverse

/-- Maximal leading run of decimal digits (greedy `\d+` at one position). -/
def digitRun (s : List Char) : List Char := s.takeWhile Char.isDigit

/-- Python `needle in haystack`: contiguous-substring test. -/
def containsSub (needle haystack : List Char) : Bool :=
  match haystack with
  | [] => needle.isEmpty
  | _ :: rest => needle.isPrefixOf haystack || containsSub needle rest

/-! ## Rate / ToS controller (claim C1)

`_apply_tos_compliance_measures`, haraj_scraper_selenium.py 242-265. -/

/-- What one call of the throttle controller does: `pauseRange` is the
inclusive bound pair handed to `random.randint` when a pause happens. -/
structure TosActions where
  pauseRange : Option (Nat × Nat)
  clearCookies : Bool
  rotateUserAgent : Bool
deriving DecidableEq

/-- `_apply_tos_compliance_measures` (242-265): everything is gated on
`listing_count > 0 and listing_count % 10 == 0`; inside that gate the
pause is `random.randint(5, 10)`, cookies are cleared when
`listing_count % 20 == 0` and the user agent is rotated when
`listing_count % 30 == 0`. -/
def apply_tos_compliance_measures (listing_count : Nat) : TosActions :=
  if 0 < listing_count ∧ listing_count % 10 = 0 then
    { pauseRange := some (5, 10)
      clearCookies := decide (listing_count % 20 = 0)
      rotateUserAgent := decide (listing_count % 30 = 0) }
  else
    { pauseRange := none, clearCookies := false, rotateUserAgent := false }

/-! ## Phone-candidate stripping and acceptance (claim C2)

The block repeated verbatim at haraj_scraper_selenium.py 577-584,
620-628 and 643-649. -/

/-- Country-code stripping applied to every phone candidate: drop a
leading `966` when the whole candidate is longer than 9 characters,
otherwise drop a leading `+966` unconditionally. -/
def stripCountryCode (phone : List Char) : List Char :=
  if "966".data.isPrefixOf phone ∧ 9 < phone.length then phone.drop 3
  else if "+966".data.isPrefixOf phone then phone.drop 4
  else phone

/-- Candidate acceptance, `if len(phone) >= 9: seller_phone = phone`:
the stripped candidate when it keeps at least 9 characters. -/
def acceptPhone (phone : List Char) : Option (List Char) :=
  let p := stripCountryCode phone
  if 9 ≤ p.length then some p else none

/-- Regex `tel:[\+]?(\d+)` at one position: after a literal `tel:`, an
optional plus, then at least one digit; the digit run is the capture. -/
def telDigitsAt (l : List Char) : Option (List Char) :=
  if "tel:".data.isPrefixOf l then
    match l.drop 4 with
    | '+' :: u =>
      let d := digitRun u
      if d.isEmpty then none else some d
    | t =>
      let d := digitRun t
      if d.isEmpty then none else some d
  else none

/-- `re.search` for `tel:[\+]?(\d+)`: leftmost position wins. -/
def telSearch : List Char → Option (List Char)
  | [] => none
  | c :: rest =>
    match telDigitsAt (c :: rest) with
    | some d => some d
    | none => telSearch rest

/-- Method 1 of the contact reveal (570-586): the first `tel:` link's
href is searched, and the captured digits go through stripping and
acceptance; a rejected capture is not retried on later links. -/
def method1Phone (telHrefs : List (List Char)) : Option (List Char) :=
  match telHrefs with
  | [] => none
  | href :: _ =>
    match telSearch href with
    | none => none
    | some digits => acceptPhone digits

/-! ## WhatsApp number derivation (claim C4)

save_to_csv, haraj_scraper_selenium.py 945-955, and download_csv,
dashboard.py 279-289, share this code. -/

/-- Digits after the rightmost `phone=` that is followed by a digit: the
greedy `.*` of `whatsapp.*phone=` commits to the last viable `phone=`.
Link texts are assumed newline-free (they are attribute values). -/
def phoneEqDigits : List Char → Option (List Char)
  | [] => none
  | c :: rest =>
    match phoneEqDigits rest with
    | some d => some d
    | none =>
      if "phone=".data.isPrefixOf (c :: rest) then
        let d := digitRun ((c :: rest).drop 6)
        if d.isEmpty then none else some d
      else none

/-- One position of `(?:wa\.me/|whatsapp.*phone=)(\d+)`: the two
alternatives start `wa.me/` and `whatsapp`, which cannot both match. -/
def waMatchAt (l : List Char) : Option (List Char) :=
  if "wa.me/".data.isPrefixOf l then
    let d := digitRun (l.drop 6)
    if d.isEmpty then none else some d
  else if "whatsapp".data.isPrefixOf l then
    phoneEqDigits (l.drop 8)
  else none

/-- `re.search` for `(?:wa\.me/|whatsapp.*phone=)(\d+)`. -/
def waSearch : List Char → Option (List Char)
  | [] => none
  | c :: rest =>
    match waMatchAt (c :: rest) with
    | some d => some d
    | none => waSearch rest

/-- whatsapp_number derivation: the regex capture, then a leading `966`
dropped when the captured number is longer than 9 digits; the empty
string when the regex does not match (in particular when the stored
link is empty or absent). -/
def whatsappNumber (link : List Char) : List Char :=
  match waSearch link with
  | none => []
  | some d => if "966".data.isPrefixOf d ∧ 9 < d.length then d.drop 3 else d

/-! ## Listing records and the job accumulator (claims C3, C9, C10)

The record shape extract_listing_details builds (374-391) and the keys
its contact section may add.  Python dict keys that may be absent are
`Option`s; `None`-or-empty string fields that only ever feed truthiness
tests keep their string value. -/

/-- contact_info keys (515, 528, 654-672): every key is absent until the
reveal protocol sets it. -/
structure ContactInfo where
  has_contact_button : Option Bool := none
  login_required : Option Bool := none
  phone_numbers : Option (List (List Char)) := none
  contact_extracted : Option Bool := none
  seller_phone : Option (List Char) := none
  seller_name : Option (List Char) := none
  whatsapp_available : Option Bool := none
  whatsapp_link : Option (List Char) := none
deriving DecidableEq

/-- The listing_data dict of extract_listing_details (376-391).
listing_id is `None` when the URL has no numeric path segment. -/
structure ListingData where
  url : List Char
  listing_id : Option (List Char)
  title : List Char := []
  description : List Char := []
  price : List Char := []
  location : List Char := []
  city : List Char := []
  posted_time : List Char := []
  seller_name : List Char := []
  seller_url : List Char := []
  category : List Char := []
  tags : List (List Char) := []
  images : List (List Char) := []
  contact_info : ContactInfo := {}
deriving DecidableEq

/-- Python truthiness of an optional string: `None` and the empty string
are falsy. -/
def optTruthy (o : Option (List Char)) : Bool :=
  match o with
  | none => false
  | some l => !l.isEmpty

/-- The acceptance test of run_scraper (dashboard.py 393): the result of
scrape_listing is truthy (`none` stands for the empty dict a failed page
load returns) and has a truthy listing_id or url. -/
def acceptListing (r : Option ListingData) : Bool :=
  match r with
  | none => false
  | some rec => optTruthy rec.listing_id || !rec.url.isEmpty

/-- run_scraper's accumulation loop (dashboard.py 383-396), cancellation
aside: each scrape result is appended iff it passes `acceptListing`. -/
def run_scraper_accumulate (results : List (Option ListingData)) : List ListingData :=
  match results with
  | [] => []
  | r :: rest =>
    match r with
    | some rec =>
      if acceptListing (some rec) then rec :: run_scraper_accumulate rest
      else run_scraper_accumulate rest
    | none => run_scraper_accumulate rest

/-- scrape_category's accumulation loop (haraj_scraper_selenium.py
902-907): `if listing_data:` alone, so every truthy dict is kept. -/
def scrape_category_accumulate (results : List (Option ListingData)) : List ListingData :=
  results.filterMap id

/-! ## Dashboard job control (claims C5, C8)

dashboard.py: the module-level scraping_status dict and the
start_scraping / run_scraper routes. -/

/-- The scraping_status dict (dashboard.py 34-40). -/
structure ScrapingStatus where
  is_running : Bool
  progress : Nat
  total : Nat
  current_listing : List Char
  error : Option (List Char)
deriving DecidableEq

/-- What start_scraping replies (428-454): a 400 rejection, or the 200
payload with status started (which also launches the background
thread). -/
inductive StartResponse where
  | alreadyRunning
  | outOfRange
  | started (max_listings : Int) (category_url : List Char)
deriving DecidableEq

/-- start_scraping (dashboard.py 428-454) with the request already
parsed to an integer max_listings: the running check comes first, then
the 1..100 range check; the function itself never writes
scraping_status (the launched thread does, later), so the status is
returned unchanged alongside the response. -/
def start_scraping (st : ScrapingStatus) (max_listings : Int)
    (category_url : List Char) : StartResponse × ScrapingStatus :=
  if st.is_running then (StartResponse.alreadyRunning, st)
  else if max_listings < 1 ∨ max_listings > 100 then (StartResponse.outOfRange, st)
  else (StartResponse.started max_listings category_url, st)

/-- The save-and-finish tail of run_scraper (dashboard.py 398-411 with
the final finally of 424-426): `saveErr = some e` models
save_to_json/save_to_csv raising with message e.  Returns the final
status and the listing list as the job leaves it. -/
def run_scraper_finish (st : ScrapingStatus) (urlCount : Nat)
    (all_listings : List ListingData) (saveErr : Option (List Char)) :
    ScrapingStatus × List ListingData :=
  let st1 :=
    if !all_listings.isEmpty then
      let stA := { st with current_listing := "Saving data...".data }
      let stB :=
        match saveErr with
        | some e => { stA with error := some ("Failed to save data: ".data ++ e) }
        | none => stA
      { stB with
          progress := urlCount
          current_listing :=
            "Completed! Scraped ".data ++ (toString all_listings.length).data ++
              " listings".data }
    else if 0 < urlCount then
      { st with error := some ("Found ".data ++ (toString urlCount).data ++
          " listing URLs but failed to extract data. Check browser/network issues.".data) }
    else
      { st with
          error := some ("No listing URLs found. The website structure may have changed or the category URL is invalid.".data) }
  ({ st1 with is_running := false, current_listing := "Finished".data },
   all_listings)

/-! ## URL discovery (claims C6, C7)

find_listing_urls, haraj_scraper_selenium.py 776-891.  The rendered
pages are an oracle `Nat → PageScan`: for each page number, the href of
every anchor each of the three scans would see (`none` models
get_attribute returning None). -/

/-- The target host marker checked on every candidate href. -/
def harajHost : List Char := "haraj.com.sa".data

/-- One position of regex `/\d{10,}/[^/]+/?$` (the method-1 / retry
pattern, lines 823 and 867): a slash, at least ten digits, a slash, a
nonempty slash-free segment, an optional final slash, end of string. -/
def listingUrlAt (l : List Char) : Bool :=
  match l with
  | [] => false
  | c :: t =>
    c == '/' &&
      (decide (10 ≤ (digitRun t).length) &&
        (match t.drop (digitRun t).length with
         | [] => false
         | c2 :: u =>
           c2 == '/' &&
             (!(u.takeWhile (fun ch => !(ch == '/'))).isEmpty &&
               (match u.drop (u.takeWhile (fun ch => !(ch == '/'))).length with
                | [] => true
                | [c3] => c3 == '/'
                | _ => false))))

/-- Scan of a pattern over every start position (`re.search`). -/
def scanSuffixes (f : List Char → Bool) : List Char → Bool
  | [] => f []
  | c :: rest => f (c :: rest) || scanSuffixes f rest

/-- re.search of the strict listing pattern over a href. -/
def method1Match (href : List Char) : Bool := scanSuffixes listingUrlAt href

/-- One position of regex `/\d{10,}/` (the method-2 pattern, line 842):
a path segment of at least ten digits. -/
def segAt (l : List Char) : Bool :=
  match l with
  | [] => false
  | c :: t =>
    c == '/' &&
      (decide (10 ≤ (digitRun t).length) &&
        (match t.drop (digitRun t).length with
         | [] => false
         | c2 :: _ => c2 == '/'))

/-- re.search of the loose listing pattern over a href. -/
def hasListingSeg (href : List Char) : Bool := scanSuffixes segAt href

/-- The method-1 / retry filter: strict pattern plus target host. -/
def m1ok (href : List Char) : Bool :=
  method1Match href && containsSub harajHost href

/-- The method-2 filter: loose pattern plus target host. -/
def m2ok (href : List Char) : Bool :=
  hasListingSeg href && containsSub harajHost href

/-- Normalisation (826-829 etc.): force a trailing slash. -/
def normalizeUrl (href : List Char) : List Char :=
  if href.getLast? = some '/' then href else href ++ ['/']

/-- One anchor-loop of find_listing_urls: each truthy href passing
`cond` is normalised and appended unless already in listing_urls or in
page_urls (the loops at 818-833, 840-850 and 863-876 differ only in
`cond` and in the lists they start from). -/
def scanLoop (cond : List Char → Bool) (listing_urls : List (List Char))
    (anchors : List (Option (List Char))) (page_urls : List (List Char)) :
    List (List Char) :=
  match anchors with
  | [] => page_urls
  | a :: rest =>
    match a with
    | none => scanLoop cond listing_urls rest page_urls
    | some href =>
      if href.isEmpty then scanLoop cond listing_urls rest page_urls
      else if cond href then
        let clean := normalizeUrl href
        if clean ∉ listing_urls ∧ clean ∉ page_urls then
          scanLoop cond listing_urls rest (page_urls ++ [clean])
        else scanLoop cond listing_urls rest page_urls
      else scanLoop cond listing_urls rest page_urls

/-- Python `list(dict.fromkeys(xs))`: drop later duplicates, keep first
occurrences in order (lines 853 and 876). -/
def dedupKeepFirst : List (List Char) → List (List Char)
  | [] => []
  | a :: rest => a :: dedupKeepFirst (rest.filter (fun x => !(x == a)))
termination_by l => l.length
decreasing_by
  simp only [List.length_cons]
  exact Nat.lt_succ_of_le (List.length_filter_le _ _)

/-- The anchors the driver would hand each of the three scans of one
page: the DOM can change between scans, so they are separate oracles. -/
structure PageScan where
  anchors1 : List (Option (List Char))
  anchors2 : List (Option (List Char))
  retryAnchors : List (Option (List Char))

/-- One iteration of the page loop (811-879): the method-1 scan, the
method-2 scan when it found nothing, dict.fromkeys dedup, and — only on
the first page — one retry scan when still empty.  Yields the page_urls
that `listing_urls.extend` receives (empty = the loop breaks). -/
def processPage (p : PageScan) (isFirstPage : Bool)
    (listing_urls : List (List Char)) : List (List Char) :=
  let p1 := scanLoop m1ok listing_urls p.anchors1 []
  let p2 := if p1.isEmpty then scanLoop m2ok listing_urls p.anchors2 p1 else p1
  let p2d := dedupKeepFirst p2
  if p2d.isEmpty then
    if isFirstPage then
      dedupKeepFirst (scanLoop m1ok listing_urls p.retryAnchors p2d)
    else p2d
  else p2d

/-- The page loop of find_listing_urls: `remaining` counts the pages the
range `1..max_pages` still allows; a page contributing nothing breaks
the loop. -/
def find_listing_urls_go (pages : Nat → PageScan) (pageIdx remaining : Nat)
    (acc : List (List Char)) : List (List Char) :=
  match remaining with
  | 0 => acc
  | r + 1 =>
    let pu := processPage (pages pageIdx) (pageIdx == 1) acc
    if pu.isEmpty then acc
    else find_listing_urls_go pages (pageIdx + 1) r (acc ++ pu)

/-- find_listing_urls (776-891).  Navigation errors, which also break
the loop, are not modelled: every requested page renders, and its
anchors are given by the oracle. -/
def find_listing_urls (pages : Nat → PageScan) (max_pages : Nat) :
    List (List Char) :=
  find_listing_urls_go pages 1 max_pages []

/-- Every candidate one page can contribute, in scan order, before the
membership filters: used to state that discovery preserves DOM order. -/
def pageCandidates (p : PageScan) : List (List Char) :=
  ((p.anchors1.filterMap id).map normalizeUrl) ++
    ((p.anchors2.filterMap id).map normalizeUrl) ++
    ((p.retryAnchors.filterMap id).map normalizeUrl)

/-- Concatenation of every page's candidates in page order. -/
def discoveryCandidates (pages : Nat → PageScan) (pageIdx remaining : Nat) :
    List (List Char) :=
  match remaining with
  | 0 => []
  | r + 1 => pageCandidates (pages pageIdx) ++ discoveryCandidates pages (pageIdx + 1) r

/-- Processing the first k pages unconditionally (no early stop): the
reference accumulation the pagination claim is stated against. -/
def runPages (pages : Nat → PageScan) : Nat → List (List Char)
  | 0 => []
  | k + 1 =>
    runPages pages k ++
      processPage (pages (k + 1)) (k + 1 == 1) (runPages pages k)

/-! ## Field extraction and the contact reveal (claims C9, C10)

extract_listing_details, haraj_scraper_selenium.py 374-698.  The page
the driver rendered is an oracle: for each query the code performs, the
texts (already as Python `.text` yields them) or hrefs it would get. -/

/-- The regex class `[\d\s-]` of the modal phone patterns. -/
def phoneClass (c : Char) : Bool := c.isDigit || isPySpace c || c == '-'

/-- Python `re.sub(r'[\s-]', '', s)` applied to a matched phone. -/
def cleanPhone (m : List Char) : List Char :=
  m.filter (fun c => !(isPySpace c || c == '-'))

/-- `re.search`-style leftmost match of `pre[\d\s-]{9,}` (greedy, so the
maximal class run; it matches iff it has at least 9 characters). -/
def prefRunSearch (pre : List Char) : List Char → Option (List Char)
  | [] => none
  | c :: rest =>
    if pre.isPrefixOf (c :: rest) then
      let run := ((c :: rest).drop pre.length).takeWhile phoneClass
      if 9 ≤ run.length then some (pre ++ run) else prefRunSearch pre rest
    else prefRunSearch pre rest

/-- Method 2 of the reveal (611-629): the patterns `\+966[\d\s-]{9,}`,
`05[\d\s-]{9,}`, `5[\d\s-]{9,}` over the modal text, in order; the
first match of each pattern is cleaned, stripped and length-checked,
and a pattern whose match is rejected does not stop the loop. -/
def method2Phone (text : List Char) : Option (List Char) :=
  let try1 :=
    match prefRunSearch "+966".data text with
    | some m => acceptPhone (cleanPhone m)
    | none => none
  match try1 with
  | some p => some p
  | none =>
    let try2 :=
      match prefRunSearch "05".data text with
      | some m => acceptPhone (cleanPhone m)
      | none => none
    match try2 with
    | some p => some p
    | none =>
      match prefRunSearch "5".data text with
      | some m => acceptPhone (cleanPhone m)
      | none => none

/-- One position of the method-3 alternation
`\+?966[\d\s-]{9,}|05[\d\s-]{9,}|5[\d\s-]{9,}`: alternatives tried in
order at the position, each with its greedy class run. -/
def altPhoneAt (l : List Char) : Option (List Char) :=
  let alt966 : Option (List Char) :=
    match l with
    | '+' :: t =>
      if "966".data.isPrefixOf t then
        let run := (t.drop 3).takeWhile phoneClass
        if 9 ≤ run.length then some ('+' :: ('9' :: ('6' :: ('6' :: run)))) else none
      else none
    | _ =>
      if "966".data.isPrefixOf l then
        let run := (l.drop 3).takeWhile phoneClass
        if 9 ≤ run.length then some ('9' :: ('6' :: ('6' :: run))) else none
      else none
  match alt966 with
  | some m => some m
  | none =>
    if "05".data.isPrefixOf l then
      let run := (l.drop 2).takeWhile phoneClass
      if 9 ≤ run.length then some ('0' :: ('5' :: run)) else none
    else if "5".data.isPrefixOf l then
      let run := (l.drop 1).takeWhile phoneClass
      if 9 ≤ run.length then some ('5' :: run) else none
    else none

/-- Leftmost match of the method-3 alternation. -/
def altPhoneSearch : List Char → Option (List Char)
  | [] => none
  | c :: rest =>
    match altPhoneAt (c :: rest) with
    | some m => some m
    | none => altPhoneSearch rest

/-- Method 3 of the reveal (633-652): the first three phone-looking
child elements of the modal; each stripped text is searched, a match is
cleaned, stripped and length-checked, and a rejected match moves on to
the next element. -/
def method3PhoneGo : List (List Char) → Option (List Char)
  | [] => none
  | t :: rest =>
    match altPhoneSearch (pyStrip t) with
    | some m =>
      match acceptPhone (cleanPhone m) with
      | some p => some p
      | none => method3PhoneGo rest
    | none => method3PhoneGo rest

/-- Method 3 over `phone_elements[:3]`. -/
def method3Phone (elemTexts : List (List Char)) : Option (List Char) :=
  method3PhoneGo (elemTexts.take 3)

/-- The regex class `[أ-ي\s]` of the Arabic name pattern (codepoints
0x623 to 0x64A, plus whitespace). -/
def arabicNameClass (c : Char) : Bool :=
  (decide (0x623 ≤ c.toNat) && decide (c.toNat ≤ 0x64A)) || isPySpace c

/-- The regex class `[A-Za-z\s]` of the English name pattern. -/
def englishNameClass (c : Char) : Bool :=
  (('A' ≤ c && c ≤ 'Z') || ('a' ≤ c && c ≤ 'z')) || isPySpace c

/-- Helper for `re.findall` of `[C]{3,}`: collect, left to right, every
maximal run of class characters of length at least minLen.  `cur` holds
the current run reversed. -/
def classRunsAux (cls : Char → Bool) (minLen : Nat) (cur : List Char) :
    List Char → List (List Char)
  | [] => if minLen ≤ cur.length ∧ cur ≠ [] then [cur.reverse] else []
  | c :: rest =>
    if cls c then classRunsAux cls minLen (c :: cur) rest
    else if minLen ≤ cur.length ∧ cur ≠ [] then
      cur.reverse :: classRunsAux cls minLen [] rest
    else classRunsAux cls minLen [] rest

/-- `re.findall` of a `[C]{minLen,}` pattern: non-overlapping greedy
matches in order. -/
def classRuns (cls : Char → Bool) (minLen : Nat) (s : List Char) :
    List (List Char) :=
  classRunsAux cls minLen [] s

/-- The per-match filter of the name heuristic (604-605): the stripped
match has 3 to 50 characters and `re.match(r'^\d+$', name)` fails. -/
def nameOk (name : List Char) : Bool :=
  (decide (3 ≤ name.length) && decide (name.length ≤ 50)) &&
    !(!name.isEmpty && name.all Char.isDigit)

/-- First of the given matches whose stripped text passes nameOk. -/
def firstGoodName : List (List Char) → Option (List Char)
  | [] => none
  | m :: rest =>
    let name := pyStrip m
    if nameOk name then some name else firstGoodName rest

/-- The seller-name heuristic over the modal text (593-609): the first
three findall matches of the Arabic pattern, then of the English
pattern, first pass wins. -/
def sellerNameFromModal (text : List Char) : Option (List Char) :=
  match firstGoodName ((classRuns arabicNameClass 3 text).take 3) with
  | some n => some n
  | none => firstGoodName ((classRuns englishNameClass 3 text).take 3)

/-- The modal/dialog container the code may find (554-568): its `.text`
and the texts of its phone-looking child elements (636-637). -/
structure ModalDom where
  text : List Char
  phoneElemTexts : List (List Char)
deriving DecidableEq

/-- The contact-related DOM state (503-513, 524-525, 572, 668-669):
whether either button query matched, whether a login prompt appeared
after the click, the `tel:` link hrefs, the modal if found, and the
WhatsApp link hrefs. -/
structure ContactDom where
  contactButtons : Bool
  loginPrompt : Bool
  telHrefs : List (List Char)
  modal : Option ModalDom
  whatsappHrefs : List (List Char)
deriving DecidableEq

/-- The contact-reveal section of extract_listing_details (501-696),
applied to the record built so far.  With no button nothing is touched;
a login prompt while logged out records has_contact_button and
login_required and returns early; otherwise the three phone methods run
in order, the name heuristic runs when a modal was found, and a
WhatsApp link is recorded verbatim. -/
def extractContact (dom : ContactDom) (is_logged_in : Bool)
    (base : ListingData) : ListingData :=
  if !dom.contactButtons then base
  else
    let ci0 : ContactInfo := { base.contact_info with has_contact_button := some true }
    if dom.loginPrompt && !is_logged_in then
      { base with contact_info := { ci0 with login_required := some true } }
    else
      let sp1 :=
        match method1Phone dom.telHrefs with
        | some p => some p
        | none =>
          match dom.modal with
          | some m => method2Phone m.text
          | none => none
      let sp2 :=
        match sp1 with
        | some p => some p
        | none =>
          match dom.modal with
          | some m => method3Phone m.phoneElemTexts
          | none => none
      let nameFromContact :=
        match dom.modal with
        | some m => sellerNameFromModal m.text
        | none => none
      let ci1 :=
        match sp2 with
        | some p =>
          { ci0 with
              phone_numbers := some [p]
              contact_extracted := some true
              seller_phone := some p }
        | none => ci0
      let ci2 :=
        match nameFromContact with
        | some n => { ci1 with seller_name := some n }
        | none => ci1
      let newSellerName :=
        match nameFromContact with
        | some n => if base.seller_name.isEmpty then n else base.seller_name
        | none => base.seller_name
      let ci3 :=
        match dom.whatsappHrefs with
        | [] => ci2
        | h :: _ =>
          { ci2 with whatsapp_available := some true, whatsapp_link := some h }
      { base with contact_info := ci3, seller_name := newSellerName }

/-- What BeautifulSoup sees on the page (397-399, 415-417): the first
h1 and the first article, when present, with get_text(strip=True)
already reduced to a stripped text. -/
structure SoupDom where
  h1Text : Option (List Char)
  articleText : Option (List Char)
deriving DecidableEq

/-- One img element's candidate sources (488). -/
structure ImgElem where
  src : Option (List Char)
  dataSrc : Option (List Char)
  dataLazySrc : Option (List Char)
deriving DecidableEq

/-- The driver-side queries of extract_listing_details, as oracles in
source order: h1 texts, post_title test-ids, article test-ids, plain
articles, currency-marker elements, city anchors, relative-time
elements, seller anchors (text and href), tag anchor texts, img
elements, and the contact DOM. -/
structure RenderedPage where
  h1Texts : List (List Char)
  postTitleTexts : List (List Char)
  articleTestIdTexts : List (List Char)
  articleTexts : List (List Char)
  priceTexts : List (List Char)
  cityTexts : List (List Char)
  timeTexts : List (List Char)
  sellerAnchors : List (List Char × List Char)
  tagTexts : List (List Char)
  imgs : List ImgElem
  contact : ContactDom
deriving DecidableEq

/-- Regex `/(\d+)/` at one position: a slash, a maximal nonempty digit
run, a slash; the run is the capture. -/
def slashIdAt (l : List Char) : Option (List Char) :=
  match l with
  | '/' :: t =>
    let d := digitRun t
    if d.isEmpty then none
    else
      match t.drop d.length with
      | '/' :: _ => some d
      | _ => none
  | _ => none

/-- extract_listing_id (369-372): `re.search(r'/(\d+)/', url)`. -/
def extract_listing_id : List Char → Option (List Char)
  | [] => none
  | c :: rest =>
    match slashIdAt (c :: rest) with
    | some d => some d
    | none => extract_listing_id rest

/-- The site base URL resolved against (40). -/
def harajBase : List Char := "https://haraj.com.sa".data

/-- urljoin(self.base_url, h) restricted to the href shapes selenium
attribute values take: an absolute URL stays, a root-relative path is
glued to the origin, anything else is resolved against the site root. -/
def urljoinBase (h : List Char) : List Char :=
  if containsSub "://".data h then h
  else
    match h with
    | '/' :: _ => harajBase ++ h
    | _ => harajBase ++ ('/' :: h)

/-- Title strategies (396-412): the soup h1 when found, else the first
driver h1, else the first post_title test-id element. -/
def extractTitle (soup : SoupDom) (page : RenderedPage) : List Char :=
  match soup.h1Text with
  | some t => t
  | none =>
    match page.h1Texts with
    | t :: _ => pyStrip t
    | [] =>
      match page.postTitleTexts with
      | t :: _ => pyStrip t
      | [] => []

/-- Description strategies (414-430): the soup article when found, else
the first post-article test-id element, else the first article tag. -/
def extractDescription (soup : SoupDom) (page : RenderedPage) : List Char :=
  match soup.articleText with
  | some t => t
  | none =>
    match page.articleTestIdTexts with
    | t :: _ => pyStrip t
    | [] =>
      match page.articleTexts with
      | t :: _ => pyStrip t
      | [] => []

/-- Price strategy (432-441): the first currency-marker element whose
stripped text contains a digit. -/
def extractPrice : List (List Char) → List Char
  | [] => []
  | t :: rest =>
    let s := pyStrip t
    if s.any Char.isDigit then s else extractPrice rest

/-- Tag extraction (469-481): every tag anchor's stripped nonempty text,
in order. -/
def extractTags (ts : List (List Char)) : List (List Char) :=
  ts.filterMap (fun t =>
    let s := pyStrip t
    if s.isEmpty then none else some s)

/-- src or data-src or data-lazy-src, with Python `or` truthiness. -/
def resolveSrc (img : ImgElem) : Option (List Char) :=
  let pick : Option (List Char) → Option (List Char) := fun o =>
    match o with
    | some s => if s.isEmpty then none else some s
    | none => none
  match pick img.src with
  | some s => some s
  | none =>
    match pick img.dataSrc with
    | some s => some s
    | none => pick img.dataLazySrc

/-- The icon/logo/badge/avatar exclusion (491), on the lowercased raw
src. -/
def excludedImg (s : List Char) : Bool :=
  let low := s.map Char.toLower
  containsSub "icon".data low || containsSub "logo".data low ||
    containsSub "badge".data low || containsSub "avatar".data low

/-- Image extraction (483-499): resolved sources, exclusion filter,
absolutised, deduplicated by exact URL, in DOM order. -/
def extractImages (imgs : List ImgElem) : List (List Char) :=
  imgs.foldl
    (fun acc img =>
      match resolveSrc img with
      | none => acc
      | some s =>
        if excludedImg s then acc
        else
          let u := urljoinBase s
          if u ∈ acc then acc else acc ++ [u])
    []

/-- extract_listing_details (374-698): the initial dict carries the
input url and the id derived from it; when the soup is None it is
returned as is; otherwise each field's ordered strategies run, and the
contact-reveal section finishes the record. -/
def extract_listing_details (soup : Option SoupDom) (page : RenderedPage)
    (url : List Char) (is_logged_in : Bool) : ListingData :=
  let base : ListingData := { url := url, listing_id := extract_listing_id url }
  match soup with
  | none => base
  | some sp =>
    let d1 := { base with
      title := extractTitle sp page
      description := extractDescription sp page
      price := extractPrice page.priceTexts }
    let d2 :=
      match page.cityTexts with
      | t :: _ =>
        let c := pyStrip t
        { d1 with city := c, location := c }
      | [] => d1
    let d3 :=
      match page.timeTexts with
      | t :: _ => { d2 with posted_time := pyStrip t }
      | [] => d2
    let d4 :=
      match page.sellerAnchors with
      | (t, h) :: _ =>
        { d3 with seller_name := pyStrip t, seller_url := urljoinBase h }
      | [] => d3
    let tags := extractTags page.tagTexts
    let d5 := { d4 with
      tags := tags
      category := match tags with | t :: _ => t | [] => [] }
    let d6 := { d5 with images := extractImages page.imgs }
    extractContact page.contact is_logged_in d6

/-! ## Theorems -/

/-- Claim C1, counterexample: at listingCount = 30 the code pauses and
rotates the user agent but does not clear cookies (30 is not a multiple
of 20), so the three actions do not all trigger together at 30. -/
theorem tos_at_thirty_no_cookie_clear :
    (apply_tos_compliance_measures 30).pauseRange = some (5, 10) ∧
    (apply_tos_compliance_measures 30).rotateUserAgent = true ∧
    (apply_tos_compliance_measures 30).clearCookies = false := by
  decide

/-- Claim C1 (amended): for every listingCount > 0, a 5-10 unit pause
triggers exactly when 10 divides it, cookies clear exactly when 20
divides it, and the user agent rotates exactly when 30 divides it; at
30 the pause and the rotation co-trigger (cookies do not), and all
three first co-trigger at multiples of 60, e.g. at 60. -/
theorem tos_thresholds_amended (n : Nat) (h : 0 < n) :
    ((apply_tos_compliance_measures n).pauseRange = some (5, 10) ↔ 10 ∣ n) ∧
    ((apply_tos_compliance_measures n).clearCookies = true ↔ 20 ∣ n) ∧
    ((apply_tos_compliance_measures n).rotateUserAgent = true ↔ 30 ∣ n) ∧
    (n = 30 →
      (apply_tos_compliance_measures n).pauseRange = some (5, 10) ∧
      (apply_tos_compliance_measures n).rotateUserAgent = true ∧
      (apply_tos_compliance_measures n).clearCookies = false) ∧
    (n = 60 →
      (apply_tos_compliance_measures n).pauseRange = some (5, 10) ∧
      (apply_tos_compliance_measures n).clearCookies = true ∧
      (apply_tos_compliance_measures n).rotateUserAgent = true) := by
  by_cases h10 : n % 10 = 0
  · refine ⟨?_, ?_, ?_, ?_, ?_⟩
    · simp [apply_tos_compliance_measures, h, h10, Nat.dvd_iff_mod_eq_zero]
    · simp [apply_tos_compliance_measures, h, h10, Nat.dvd_iff_mod_eq_zero]
    · simp [apply_tos_compliance_measures, h, h10, Nat.dvd_iff_mod_eq_zero]
    · intro h30
      subst h30
      decide
    · intro h60
      subst h60
      decide
  · refine ⟨?_, ?_, ?_, ?_, ?_⟩
    · simp only [apply_tos_compliance_measures,
        if_neg (fun hc : 0 < n ∧ n % 10 = 0 => h10 hc.2)]
      refine iff_of_false (by simp) (fun hd => h10 (Nat.dvd_iff_mod_eq_zero.mp hd))
    · simp only [apply_tos_compliance_measures,
        if_neg (fun hc : 0 < n ∧ n % 10 = 0 => h10 hc.2)]
      refine iff_of_false (by simp) (fun hd => ?_)
      have := Nat.dvd_iff_mod_eq_zero.mp hd
      omega
    · simp only [apply_tos_compliance_measures,
        if_neg (fun hc : 0 < n ∧ n % 10 = 0 => h10 hc.2)]
      refine iff_of_false (by simp) (fun hd => ?_)
      have := Nat.dvd_iff_mod_eq_zero.mp hd
      omega
    · intro h30
      subst h30
      omega
    · intro h60
      subst h60
      omega

/-- Claim C1 witness: the amended thresholds evaluated at 60, where all
three actions co-trigger. -/
theorem tos_thresholds_amended_witness :
    ((apply_tos_compliance_measures 60).pauseRange = some (5, 10) ↔ 10 ∣ 60) ∧
    ((apply_tos_compliance_measures 60).clearCookies = true ↔ 20 ∣ 60) ∧
    ((apply_tos_compliance_measures 60).rotateUserAgent = true ↔ 30 ∣ 60) ∧
    ((60 : Nat) = 30 →
      (apply_tos_compliance_measures 60).pauseRange = some (5, 10) ∧
      (apply_tos_compliance_measures 60).rotateUserAgent = true ∧
      (apply_tos_compliance_measures 60).clearCookies = false) ∧
    ((60 : Nat) = 60 →
      (apply_tos_compliance_measures 60).pauseRange = some (5, 10) ∧
      (apply_tos_compliance_measures 60).clearCookies = true ∧
      (apply_tos_compliance_measures 60).rotateUserAgent = true) :=
  tos_thresholds_amended 60 (by decide)

/-- Claim C2, counterexample: the twelve-digit tel: candidate
966123456789 is stripped by the code (its total length exceeds 9)
although only 9 digits remain after stripping, which does not exceed 9;
the claim as stated would forbid the strip here. -/
theorem phone_strip_at_twelve_digit_candidate :
    method1Phone ["tel:966123456789".data] = some ("123456789".data) ∧
    stripCountryCode ("966123456789".data) ≠ "966123456789".data ∧
    ¬ 9 < (stripCountryCode ("966123456789".data)).length := by
  decide

/-- Claim C2 (amended): a candidate is stripped exactly when it starts
with 966 and its total length (prefix included) exceeds 9, or when it
starts with +966 (unconditionally); it is accepted exactly when at
least 9 characters remain after stripping; and the tel: pipeline feeds
its captured digits through exactly this strip-and-accept step. -/
theorem phone_strip_amended (p : List Char) :
    (stripCountryCode p ≠ p ↔
      ("966".data.isPrefixOf p = true ∧ 9 < p.length) ∨
        "+966".data.isPrefixOf p = true) ∧
    (acceptPhone p =
      if 9 ≤ (stripCountryCode p).length then some (stripCountryCode p) else none) ∧
    (∀ href rest d, telSearch href = some d →
      method1Phone (href :: rest) = acceptPhone d) := by
  refine ⟨?_, rfl, ?_⟩
  · by_cases h1 : "966".data.isPrefixOf p = true ∧ 9 < p.length
    · rw [stripCountryCode, if_pos h1]
      refine iff_of_true (fun heq => ?_) (Or.inl h1)
      have hlen := congrArg List.length heq
      rw [List.length_drop] at hlen
      omega
    · by_cases h2 : "+966".data.isPrefixOf p = true
      · rw [stripCountryCode, if_neg h1, if_pos h2]
        refine iff_of_true (fun heq => ?_) (Or.inr h2)
        have hle : 4 ≤ p.length := by
          have := (List.isPrefixOf_iff_prefix.mp h2).length_le
          simpa using this
        have hlen := congrArg List.length heq
        rw [List.length_drop] at hlen
        omega
      · rw [stripCountryCode, if_neg h1, if_neg h2]
        refine iff_of_false (fun heq => heq rfl) ?_
        rintro (hc | hc)
        · exact h1 hc
        · exact h2 hc
  · intro href rest d hd
    rw [method1Phone, hd]

/-- Claim C5: start_scraping rejects while a job is running and leaves
the status untouched; with no job running it rejects max_listings
outside 1..100; otherwise it replies started (launching the job) and
still does not itself touch the status. -/
theorem start_scraping_control (st : ScrapingStatus) (m : Int) (u : List Char) :
    (st.is_running = true →
      start_scraping st m u = (StartResponse.alreadyRunning, st)) ∧
    (st.is_running = false → (m < 1 ∨ m > 100) →
      start_scraping st m u = (StartResponse.outOfRange, st)) ∧
    (st.is_running = false → 1 ≤ m → m ≤ 100 →
      start_scraping st m u = (StartResponse.started m u, st)) := by
  refine ⟨?_, ?_, ?_⟩
  · intro h
    simp [start_scraping, h]
  · intro h hr
    simp [start_scraping, h, hr]
  · intro h h1 h100
    have hr : ¬ (m < 1 ∨ m > 100) := by omega
    simp [start_scraping, h, hr]

/-- Claim C8: when listings were accumulated and saving raises, the
error is recorded, the listing list is returned unchanged, and the job
still reaches its terminal state (is_running false, activity
Finished). -/
theorem persistence_failure_keeps_listings (st : ScrapingStatus)
    (urlCount : Nat) (listings : List ListingData) (e : List Char)
    (h : listings ≠ []) :
    (run_scraper_finish st urlCount listings (some e)).2 = listings ∧
    (run_scraper_finish st urlCount listings (some e)).1.error =
      some ("Failed to save data: ".data ++ e) ∧
    (run_scraper_finish st urlCount listings (some e)).1.is_running = false ∧
    (run_scraper_finish st urlCount listings (some e)).1.current_listing =
      "Finished".data := by
  have hne : listings.isEmpty = false := by
    simpa [List.isEmpty_iff] using h
  refine ⟨rfl, ?_, rfl, rfl⟩
  simp [run_scraper_finish, hne]

/-- Claim C8 witness: the persistence-failure behaviour at a concrete
one-listing job. -/
theorem persistence_failure_keeps_listings_witness :
    (run_scraper_finish ⟨true, 0, 1, [], none⟩ 1
        [{ url := "u".data, listing_id := none }] (some ("disk full".data))).2 =
      [{ url := "u".data, listing_id := none }] ∧
    (run_scraper_finish ⟨true, 0, 1, [], none⟩ 1
        [{ url := "u".data, listing_id := none }] (some ("disk full".data))).1.error =
      some ("Failed to save data: ".data ++ "disk full".data) ∧
    (run_scraper_finish ⟨true, 0, 1, [], none⟩ 1
        [{ url := "u".data, listing_id := none }] (some ("disk full".data))).1.is_running =
      false ∧
    (run_scraper_finish ⟨true, 0, 1, [], none⟩ 1
        [{ url := "u".data, listing_id := none }] (some ("disk full".data))).1.current_listing =
      "Finished".data :=
  persistence_failure_keeps_listings ⟨true, 0, 1, [], none⟩ 1
    [{ url := "u".data, listing_id := none }] ("disk full".data) (by simp)

/-- Helper: a takeWhile over characters none of which satisfy the
predicate is empty. -/
theorem takeWhile_eq_nil_of_none {p : Char → Bool} {l : List Char}
    (h : ∀ c ∈ l, p c = false) : l.takeWhile p = [] := by
  cases l with
  | nil => rfl
  | cons c rest =>
    simp [List.takeWhile_cons, h c (List.mem_cons_self c rest)]

/-- Helper: characters of a takeWhile satisfy the predicate. -/
theorem mem_takeWhile_pred {p : Char → Bool} {l : List Char} {c : Char}
    (h : c ∈ l.takeWhile p) : p c = true :=
  List.mem_takeWhile_imp h

/-- Helper: phoneEqDigits finds nothing in a digit-free text. -/
theorem phoneEqDigits_none {l : List Char}
    (h : ∀ c ∈ l, c.isDigit = false) : phoneEqDigits l = none := by
  induction l with
  | nil => rfl
  | cons c rest ih =>
    have hr : phoneEqDigits rest = none :=
      ih (fun x hx => h x (List.mem_cons_of_mem c hx))
    have hd : digitRun ((c :: rest).drop 6) = [] :=
      takeWhile_eq_nil_of_none (fun x hx => h x (List.drop_subset 6 (c :: rest) hx))
    rw [phoneEqDigits, hr]
    by_cases hp : "phone=".data.isPrefixOf (c :: rest) = true
    · rw [if_pos hp]
      simp only [List.drop_succ_cons] at hd
      simp [hd]
    · rw [if_neg hp]

/-- Helper: waMatchAt finds nothing at a digit-free suffix. -/
theorem waMatchAt_none {l : List Char}
    (h : ∀ c ∈ l, c.isDigit = false) : waMatchAt l = none := by
  have h6 : digitRun (l.drop 6) = [] :=
    takeWhile_eq_nil_of_none (fun x hx => h x (List.drop_subset 6 l hx))
  have h8 : phoneEqDigits (l.drop 8) = none :=
    phoneEqDigits_none (fun x hx => h x (List.drop_subset 8 l hx))
  rw [waMatchAt]
  by_cases h1 : "wa.me/".data.isPrefixOf l = true
  · rw [if_pos h1]
    simp [h6]
  · rw [if_neg h1]
    by_cases h2 : "whatsapp".data.isPrefixOf l = true
    · rw [if_pos h2]
      exact h8
    · rw [if_neg h2]

/-- Helper: waSearch finds nothing in a digit-free link. -/
theorem waSearch_none {l : List Char}
    (h : ∀ c ∈ l, c.isDigit = false) : waSearch l = none := by
  induction l with
  | nil => rfl
  | cons c rest ih =>
    have hm : waMatchAt (c :: rest) = none := waMatchAt_none h
    have hr : waSearch rest = none :=
      ih (fun x hx => h x (List.mem_cons_of_mem c hx))
    simp [waSearch, hm, hr]

/-- Helper: a successful phoneEqDigits capture is a nonempty digit
run. -/
theorem phoneEqDigits_digits {l d : List Char}
    (h : phoneEqDigits l = some d) : d ≠ [] ∧ ∀ c ∈ d, c.isDigit = true := by
  induction l with
  | nil => simp [phoneEqDigits] at h
  | cons c rest ih =>
    rw [phoneEqDigits] at h
    cases hrec : phoneEqDigits rest with
    | some d0 =>
      rw [hrec] at h
      cases h
      exact ih hrec
    | none =>
      rw [hrec] at h
      by_cases hp : "phone=".data.isPrefixOf (c :: rest) = true
      · rw [if_pos hp] at h
        by_cases he : (digitRun ((c :: rest).drop 6)).isEmpty = true
        · rw [if_pos he] at h
          cases h
        · rw [if_neg he] at h
          cases h
          refine ⟨by simpa [List.isEmpty_iff] using he, ?_⟩
          intro x hx
          exact mem_takeWhile_pred hx
      · rw [if_neg hp] at h
        cases h

/-- Helper: a successful waMatchAt capture is a nonempty digit run. -/
theorem waMatchAt_digits {l d : List Char}
    (h : waMatchAt l = some d) : d ≠ [] ∧ ∀ c ∈ d, c.isDigit = true := by
  rw [waMatchAt] at h
  by_cases h1 : "wa.me/".data.isPrefixOf l = true
  · rw [if_pos h1] at h
    by_cases he : (digitRun (l.drop 6)).isEmpty = true
    · rw [if_pos he] at h
      cases h
    · rw [if_neg he] at h
      cases h
      refine ⟨by simpa [List.isEmpty_iff] using he, ?_⟩
      intro x hx
      exact mem_takeWhile_pred hx
  · rw [if_neg h1] at h
    by_cases h2 : "whatsapp".data.isPrefixOf l = true
    · rw [if_pos h2] at h
      exact phoneEqDigits_digits h
    · rw [if_neg h2] at h
      cases h

/-- Helper: a successful waSearch capture is a nonempty digit run. -/
theorem waSearch_digits {l d : List Char}
    (h : waSearch l = some d) : d ≠ [] ∧ ∀ c ∈ d, c.isDigit = true := by
  induction l with
  | nil => simp [waSearch] at h
  | cons c rest ih =>
    rw [waSearch] at h
    cases hm : waMatchAt (c :: rest) with
    | some d0 =>
      rw [hm] at h
      cases h
      exact waMatchAt_digits hm
    | none =>
      rw [hm] at h
      exact ih h

/-- Claim C4, counterexample: a stored WhatsApp link can end in
/966501234567 and still yield an empty whatsapp_number, because the
digits follow neither a wa.me/ marker nor a phone= parameter. -/
theorem whatsapp_link_suffix_not_extracted :
    List.isSuffixOf ("/966501234567".data)
        ("https://api.whatsapp.com/966501234567".data) = true ∧
    containsSub ("whatsapp".data) ("https://api.whatsapp.com/966501234567".data) = true ∧
    whatsappNumber ("https://api.whatsapp.com/966501234567".data) = [] := by
  decide

/-- Claim C4 (amended): the whatsapp_number is the digit run captured
after a wa.me/ marker or after the last viable phone= following a
whatsapp marker, with a leading 966 stripped when the captured run is
longer than 9 digits; a wa.me link ending in /966501234567 yields
501234567, and a link containing no digit yields the empty field. -/
theorem whatsapp_number_amended :
    whatsappNumber ("https://wa.me/966501234567".data) = "501234567".data ∧
    (∀ link, (∀ c ∈ link, c.isDigit = false) → whatsappNumber link = []) ∧
    (∀ link d, waSearch link = some d →
      (d ≠ [] ∧ ∀ c ∈ d, c.isDigit = true) ∧
      whatsappNumber link =
        if "966".data.isPrefixOf d ∧ 9 < d.length then d.drop 3 else d) := by
  refine ⟨by decide, ?_, ?_⟩
  · intro link h
    simp [whatsappNumber, waSearch_none h]
  · intro link d h
    exact ⟨waSearch_digits h, by simp [whatsappNumber, h]⟩

/-- Helper: acceptance of a truthy record, spelled propositionally. -/
theorem acceptListing_some_iff (rec : ListingData) :
    acceptListing (some rec) = true ↔
      (rec.listing_id.getD [] ≠ [] ∨ rec.url ≠ []) := by
  cases hid : rec.listing_id with
  | none => simp [acceptListing, optTruthy, hid, List.isEmpty_iff]
  | some l => simp [acceptListing, optTruthy, hid, List.isEmpty_iff]

/-- Claim C3: a scrape result is retained by the job's accumulation loop
iff it is a truthy record whose listing_id or url is non-empty; under
the url-propagation guarantee the CLI accumulator satisfies the same
characterisation. -/
theorem listing_acceptance_iff (results : List (Option ListingData))
    (rec : ListingData) :
    (rec ∈ run_scraper_accumulate results ↔
      some rec ∈ results ∧ (rec.listing_id.getD [] ≠ [] ∨ rec.url ≠ [])) ∧
    ((∀ r ∈ results, ∀ s : ListingData, r = some s → s.url ≠ []) →
      (rec ∈ scrape_category_accumulate results ↔
        some rec ∈ results ∧ (rec.listing_id.getD [] ≠ [] ∨ rec.url ≠ []))) := by
  constructor
  · induction results with
    | nil => simp [run_scraper_accumulate]
    | cons r rest ih =>
      cases r with
      | none =>
        simp only [run_scraper_accumulate, List.mem_cons]
        rw [ih]
        simp
      | some s =>
        by_cases ha : acceptListing (some s) = true
        · simp only [run_scraper_accumulate, if_pos ha, List.mem_cons]
          rw [ih]
          constructor
          · rintro (rfl | ⟨hm, hc⟩)
            · exact ⟨Or.inl rfl, (acceptListing_some_iff rec).mp ha⟩
            · exact ⟨Or.inr hm, hc⟩
          · rintro ⟨hs | hm, hc⟩
            · exact Or.inl (Option.some_inj.mp hs)
            · exact Or.inr ⟨hm, hc⟩
        · simp only [run_scraper_accumulate, if_neg ha, List.mem_cons]
          rw [ih]
          constructor
          · rintro ⟨hm, hc⟩
            exact ⟨Or.inr hm, hc⟩
          · rintro ⟨hs | hm, hc⟩
            · exfalso
              cases Option.some_inj.mp hs
              exact ha ((acceptListing_some_iff rec).mpr hc)
            · exact ⟨hm, hc⟩
  · intro hurl
    have hmf : rec ∈ scrape_category_accumulate results ↔ some rec ∈ results := by
      simp [scrape_category_accumulate, List.mem_filterMap]
    rw [hmf]
    constructor
    · intro hm
      exact ⟨hm, Or.inr (hurl (some rec) hm rec rfl)⟩
    · exact And.left

/-- Helper: the contact-reveal step never changes the url field. -/
theorem extractContact_url (dom : ContactDom) (li : Bool) (b : ListingData) :
    (extractContact dom li b).url = b.url := by
  unfold extractContact
  split
  · rfl
  · split
    · rfl
    · rfl

/-- Helper: the contact-reveal step leaves phone_numbers alone or sets a
singleton. -/
theorem extractContact_phone_numbers (dom : ContactDom) (li : Bool)
    (b : ListingData) :
    (extractContact dom li b).contact_info.phone_numbers =
        b.contact_info.phone_numbers ∨
      ∃ p, (extractContact dom li b).contact_info.phone_numbers = some [p] := by
  unfold extractContact
  split
  · exact Or.inl rfl
  · split
    · exact Or.inl rfl
    · dsimp only
      repeat' split
      all_goals
        first
          | exact Or.inl rfl
          | exact Or.inr ⟨_, rfl⟩

/-- Helper: contact-reveal phone_numbers on a record whose contact_info
starts empty. -/
theorem extractContact_pn_of_empty (dom : ContactDom) (li : Bool)
    (b : ListingData) (hb : b.contact_info = {}) :
    (extractContact dom li b).contact_info.phone_numbers = none ∨
      ∃ p, (extractContact dom li b).contact_info.phone_numbers = some [p] := by
  rcases extractContact_phone_numbers dom li b with h | h
  · left
    rw [h, hb]
  · right
    exact h

/-- Helper: a record with a non-empty url passes the acceptance test. -/
theorem acceptListing_of_url (rec : ListingData) (h : rec.url ≠ []) :
    acceptListing (some rec) = true := by
  have hur : rec.url.isEmpty = false := by
    cases hrec : rec.url.isEmpty
    · rfl
    · exact absurd (List.isEmpty_iff.mp hrec) h
  cases hid : rec.listing_id with
  | none => simp [acceptListing, optTruthy, hid, hur]
  | some l => simp [acceptListing, optTruthy, hid, hur]

/-- Claim C9: field extraction returns the input URL in the url field
on every input, the soup-missing case included; hence any record from a
non-empty input URL passes the id-or-url acceptance test. -/
theorem extract_url_field_preserved (soup : Option SoupDom)
    (page : RenderedPage) (url : List Char) (li : Bool) :
    (extract_listing_details soup page url li).url = url ∧
    (url ≠ [] →
      acceptListing (some (extract_listing_details soup page url li)) = true) := by
  have hurl : (extract_listing_details soup page url li).url = url := by
    cases soup with
    | none => rfl
    | some sp =>
      simp only [extract_listing_details]
      rw [extractContact_url]
      rcases hsa : page.sellerAnchors with _ | ⟨⟨ta, ha⟩, sr⟩ <;>
        rcases htt : page.timeTexts with _ | ⟨tt, tr⟩ <;>
          rcases hct : page.cityTexts with _ | ⟨ct, cr⟩ <;>
            simp only [hsa, htt, hct]
  refine ⟨hurl, fun hne => ?_⟩
  apply acceptListing_of_url
  rw [hurl]
  exact hne

/-- Claim C10: every extracted record's phone_numbers key is either
absent or a singleton list: the reveal protocol stores at most one
accepted candidate, and never an empty list. -/
theorem phone_numbers_at_most_one (soup : Option SoupDom)
    (page : RenderedPage) (url : List Char) (li : Bool) :
    (extract_listing_details soup page url li).contact_info.phone_numbers =
        none ∨
      ∃ p, (extract_listing_details soup page url li).contact_info.phone_numbers =
        some [p] := by
  cases soup with
  | none => exact Or.inl rfl
  | some sp =>
    simp only [extract_listing_details]
    apply extractContact_pn_of_empty
    rcases hsa : page.sellerAnchors with _ | ⟨⟨ta, ha⟩, sr⟩ <;>
      rcases htt : page.timeTexts with _ | ⟨tt, tr⟩ <;>
        rcases hct : page.cityTexts with _ | ⟨ct, cr⟩ <;>
          simp only [hsa, htt, hct]

/-- Helper: the empty needle occurs in every haystack. -/
theorem containsSub_nil_left (y : List Char) : containsSub [] y = true := by
  cases y with
  | nil => rfl
  | cons c rest => simp [containsSub, List.isPrefixOf_iff_prefix]

/-- Helper: a substring occurrence survives appending on the right. -/
theorem containsSub_append {n h : List Char} (x : List Char)
    (hc : containsSub n h = true) : containsSub n (h ++ x) = true := by
  induction h with
  | nil =>
    have : n = [] := by simpa [containsSub, List.isEmpty_iff] using hc
    subst this
    exact containsSub_nil_left x
  | cons c rest ih =>
    rw [containsSub, Bool.or_eq_true] at hc
    rcases hc with hp | hr
    · have hpre : n <+: (c :: rest) := List.isPrefixOf_iff_prefix.mp hp
      have : n <+: (c :: rest) ++ x := hpre.trans (List.prefix_append _ x)
      rw [List.cons_append, containsSub, Bool.or_eq_true]
      exact Or.inl (List.isPrefixOf_iff_prefix.mpr (by simpa using this))
    · rw [List.cons_append, containsSub, Bool.or_eq_true]
      exact Or.inr (ih hr)

/-- Helper: a takeWhile that stops inside the list is unchanged by
appending. -/
theorem takeWhile_append_of_ne {p : Char → Bool} {l : List Char}
    (x : List Char) (h : l.takeWhile p ≠ l) :
    (l ++ x).takeWhile p = l.takeWhile p := by
  induction l with
  | nil => exact absurd rfl h
  | cons c rest ih =>
    by_cases hc : p c = true
    · have hrest : rest.takeWhile p ≠ rest := by
        intro he
        exact h (by simp [List.takeWhile_cons, hc, he])
      simp [List.takeWhile_cons, hc, ih hrest]
    · simp [List.takeWhile_cons, hc]

/-- Helper: the digit-run prefix stops inside t whenever something
follows it. -/
theorem digitRun_ne_of_drop_cons {t : List Char} {c2 : Char} {u : List Char}
    (h : t.drop (digitRun t).length = c2 :: u) : digitRun t ≠ t := by
  intro he
  have h1 : (digitRun t).length = t.length := by rw [he]
  rw [h1, List.drop_length] at h
  cases h

/-- Helper: a loose listing-segment match at a position survives
appending on the right. -/
theorem segAt_append {s : List Char} (x : List Char) (h : segAt s = true) :
    segAt (s ++ x) = true := by
  cases s with
  | nil => simp [segAt] at h
  | cons c t =>
    rw [segAt, Bool.and_eq_true, Bool.and_eq_true] at h
    obtain ⟨hslash, hlen, hmatch⟩ := h
    cases hdrop : t.drop (digitRun t).length with
    | nil => rw [hdrop] at hmatch; cases hmatch
    | cons c2 u =>
      rw [hdrop] at hmatch
      have hne : digitRun t ≠ t := digitRun_ne_of_drop_cons hdrop
      have htw : digitRun (t ++ x) = digitRun t := takeWhile_append_of_ne x hne
      have hle : (digitRun t).length ≤ t.length := by
        rw [digitRun]
        exact (List.takeWhile_sublist Char.isDigit).length_le
      have hdrop2 : (t ++ x).drop (digitRun t).length = c2 :: (u ++ x) := by
        rw [List.drop_append_of_le_length hle, hdrop]
        rfl
      rw [List.cons_append, segAt, Bool.and_eq_true, Bool.and_eq_true]
      refine ⟨hslash, ?_, ?_⟩
      · rw [htw]
        exact hlen
      · rw [htw, hdrop2]
        exact hmatch

/-- Helper: a scanSuffixes hit is preserved by any pointwise-stronger
position test. -/
theorem scanSuffixes_mono {f g : List Char → Bool}
    (hfg : ∀ s, f s = true → g s = true) :
    ∀ {l : List Char}, scanSuffixes f l = true → scanSuffixes g l = true := by
  intro l
  induction l with
  | nil =>
    intro h
    exact hfg [] h
  | cons c rest ih =>
    intro h
    rw [scanSuffixes, Bool.or_eq_true] at h
    rw [scanSuffixes, Bool.or_eq_true]
    rcases h with h | h
    · exact Or.inl (hfg _ h)
    · exact Or.inr (ih h)

/-- Helper: a loose listing-segment hit survives appending. -/
theorem hasListingSeg_append {l : List Char} (x : List Char)
    (h : hasListingSeg l = true) : hasListingSeg (l ++ x) = true := by
  induction l with
  | nil =>
    rw [hasListingSeg, scanSuffixes] at h
    simp [segAt] at h
  | cons c rest ih =>
    rw [hasListingSeg, scanSuffixes, Bool.or_eq_true] at h
    rw [List.cons_append, hasListingSeg, scanSuffixes, Bool.or_eq_true]
    rcases h with h | h
    · exact Or.inl (by rw [← List.cons_append]; exact segAt_append x h)
    · exact Or.inr (ih h)

/-- Helper: the strict listing pattern implies the loose one at every
position. -/
theorem listingUrlAt_segAt {l : List Char} (h : listingUrlAt l = true) :
    segAt l = true := by
  cases l with
  | nil => simp [listingUrlAt] at h
  | cons c t =>
    rw [listingUrlAt, Bool.and_eq_true, Bool.and_eq_true] at h
    obtain ⟨hslash, hlen, hmatch⟩ := h
    rw [segAt, Bool.and_eq_true, Bool.and_eq_true]
    refine ⟨hslash, hlen, ?_⟩
    cases hdrop : t.drop (digitRun t).length with
    | nil => rw [hdrop] at hmatch; cases hmatch
    | cons c2 u =>
      rw [hdrop] at hmatch
      rw [Bool.and_eq_true] at hmatch
      exact hmatch.1

/-- Helper: a strict method-1 hit implies a loose hit. -/
theorem method1Match_hasListingSeg {l : List Char}
    (h : method1Match l = true) : hasListingSeg l = true :=
  scanSuffixes_mono (fun _ hs => listingUrlAt_segAt hs) h

/-- Helper: normalisation forces the trailing slash. -/
theorem normalizeUrl_getLast (href : List Char) :
    (normalizeUrl href).getLast? = some '/' := by
  rw [normalizeUrl]
  by_cases h : href.getLast? = some '/'
  · rw [if_pos h]
    exact h
  · rw [if_neg h]
    exact List.getLast?_concat href

/-- Helper: normalisation preserves a loose listing-segment hit. -/
theorem normalizeUrl_hasListingSeg {href : List Char}
    (h : hasListingSeg href = true) :
    hasListingSeg (normalizeUrl href) = true := by
  rw [normalizeUrl]
  by_cases he : href.getLast? = some '/'
  · rw [if_pos he]
    exact h
  · rw [if_neg he]
    exact hasListingSeg_append ['/'] h

/-- Helper: normalisation preserves a substring occurrence. -/
theorem normalizeUrl_containsSub {n href : List Char}
    (h : containsSub n href = true) :
    containsSub n (normalizeUrl href) = true := by
  rw [normalizeUrl]
  by_cases he : href.getLast? = some '/'
  · rw [if_pos he]
    exact h
  · rw [if_neg he]
    exact containsSub_append ['/'] h

/-- The invariant every discovered URL satisfies: trailing slash, loose
listing pattern, target host. -/
def goodUrl (u : List Char) : Prop :=
  u.getLast? = some '/' ∧ hasListingSeg u = true ∧
    containsSub harajHost u = true

/-- Helper: either filter produces only good normalised URLs. -/
theorem goodUrl_of_m2ok {href : List Char} (h : m2ok href = true) :
    goodUrl (normalizeUrl href) := by
  rw [m2ok, Bool.and_eq_true] at h
  exact ⟨normalizeUrl_getLast href, normalizeUrl_hasListingSeg h.1,
    normalizeUrl_containsSub h.2⟩

/-- Helper: the strict filter implies the loose one. -/
theorem m1ok_m2ok {href : List Char} (h : m1ok href = true) :
    m2ok href = true := by
  rw [m1ok, Bool.and_eq_true] at h
  rw [m2ok, Bool.and_eq_true]
  exact ⟨method1Match_hasListingSeg h.1, h.2⟩

/-- Helper: every element the anchor loop returns was already in the
accumulator or is a normalised href passing the filter. -/
theorem scanLoop_mem {cond : List Char → Bool} {lu : List (List Char)}
    {anchors : List (Option (List Char))} :
    ∀ {pu x}, x ∈ scanLoop cond lu anchors pu →
      x ∈ pu ∨ ∃ href, cond href = true ∧ x = normalizeUrl href := by
  induction anchors with
  | nil =>
    intro pu x h
    exact Or.inl h
  | cons a rest ih =>
    intro pu x h
    cases a with
    | none =>
      rw [scanLoop] at h
      exact ih h
    | some href =>
      rw [scanLoop] at h
      by_cases he : href.isEmpty = true
      · rw [if_pos he] at h
        exact ih h
      · rw [if_neg he] at h
        by_cases hc : cond href = true
        · rw [if_pos hc] at h
          by_cases hm : normalizeUrl href ∉ lu ∧ normalizeUrl href ∉ pu
          · rw [if_pos hm] at h
            rcases ih h with hin | hnew
            · rcases List.mem_append.mp hin with hin | hin
              · exact Or.inl hin
              · have : x = normalizeUrl href := by simpa using hin
                exact Or.inr ⟨href, hc, this⟩
            · exact Or.inr hnew
          · rw [if_neg hm] at h
            exact ih h
        · rw [if_neg hc] at h
          exact ih h

/-- Helper: the anchor loop keeps the accumulator duplicate-free and
disjoint from the already-collected listing_urls. -/
theorem scanLoop_nodup {cond : List Char → Bool} {lu : List (List Char)}
    {anchors : List (Option (List Char))} :
    ∀ {pu}, pu.Nodup → (∀ x ∈ pu, x ∉ lu) →
      (scanLoop cond lu anchors pu).Nodup ∧
        ∀ x ∈ scanLoop cond lu anchors pu, x ∉ lu := by
  induction anchors with
  | nil =>
    intro pu h1 h2
    exact ⟨h1, h2⟩
  | cons a rest ih =>
    intro pu h1 h2
    cases a with
    | none =>
      rw [scanLoop]
      exact ih h1 h2
    | some href =>
      rw [scanLoop]
      by_cases he : href.isEmpty = true
      · rw [if_pos he]
        exact ih h1 h2
      · rw [if_neg he]
        by_cases hc : cond href = true
        · rw [if_pos hc]
          by_cases hm : normalizeUrl href ∉ lu ∧ normalizeUrl href ∉ pu
          · rw [if_pos hm]
            have h1n : (pu ++ [normalizeUrl href]).Nodup := by
              rw [List.nodup_append]
              refine ⟨h1, List.nodup_singleton _, fun x hx hy => ?_⟩
              have hxe : x = normalizeUrl href := by simpa using hy
              exact hm.2 (hxe ▸ hx)
            have h2n : ∀ x ∈ pu ++ [normalizeUrl href], x ∉ lu := by
              intro x hx
              rcases List.mem_append.mp hx with hx | hx
              · exact h2 x hx
              · have : x = normalizeUrl href := by simpa using hx
                rw [this]
                exact hm.1
            exact ih h1n h2n
          · rw [if_neg hm]
            exact ih h1 h2
        · rw [if_neg hc]
          exact ih h1 h2

/-- Helper: the anchor loop appends, in order, a subsequence of the
normalised anchor hrefs. -/
theorem scanLoop_append_sublist {cond : List Char → Bool}
    {lu : List (List Char)} {anchors : List (Option (List Char))} :
    ∀ pu, ∃ ext, scanLoop cond lu anchors pu = pu ++ ext ∧
      List.Sublist ext ((anchors.filterMap id).map normalizeUrl) := by
  induction anchors with
  | nil =>
    intro pu
    exact ⟨[], by simp [scanLoop], by simp⟩
  | cons a rest ih =>
    intro pu
    cases a with
    | none =>
      obtain ⟨ext, h1, h2⟩ := ih pu
      refine ⟨ext, by rw [scanLoop]; exact h1, ?_⟩
      simpa [List.filterMap_cons] using h2
    | some href =>
      by_cases he : href.isEmpty = true
      · obtain ⟨ext, h1, h2⟩ := ih pu
        refine ⟨ext, ?_, ?_⟩
        · rw [scanLoop, if_pos he]
          exact h1
        · have hred : (((some href :: rest).filterMap id).map normalizeUrl)
              = normalizeUrl href :: ((rest.filterMap id).map normalizeUrl) := by
            simp [List.filterMap_cons]
          rw [hred]
          exact h2.cons _
      · by_cases hc : cond href = true
        · by_cases hm : normalizeUrl href ∉ lu ∧ normalizeUrl href ∉ pu
          · obtain ⟨ext, h1, h2⟩ := ih (pu ++ [normalizeUrl href])
            refine ⟨normalizeUrl href :: ext, ?_, ?_⟩
            · rw [scanLoop, if_neg he, if_pos hc, if_pos hm, h1]
              simp
            · have hred : (((some href :: rest).filterMap id).map normalizeUrl)
                  = normalizeUrl href :: ((rest.filterMap id).map normalizeUrl) := by
                simp [List.filterMap_cons]
              rw [hred]
              exact h2.cons₂ _
          · obtain ⟨ext, h1, h2⟩ := ih pu
            refine ⟨ext, ?_, ?_⟩
            · rw [scanLoop, if_neg he, if_pos hc, if_neg hm]
              exact h1
            · have hred : (((some href :: rest).filterMap id).map normalizeUrl)
                  = normalizeUrl href :: ((rest.filterMap id).map normalizeUrl) := by
                simp [List.filterMap_cons]
              rw [hred]
              exact h2.cons _
        · obtain ⟨ext, h1, h2⟩ := ih pu
          refine ⟨ext, ?_, ?_⟩
          · rw [scanLoop, if_neg he, if_neg hc]
            exact h1
          · have hred : (((some href :: rest).filterMap id).map normalizeUrl)
                = normalizeUrl href :: ((rest.filterMap id).map normalizeUrl) := by
              simp [List.filterMap_cons]
            rw [hred]
            exact h2.cons _

/-- Helper: dict.fromkeys is the identity on a duplicate-free list. -/
theorem dedupKeepFirst_eq_self {l : List (List Char)} (h : l.Nodup) :
    dedupKeepFirst l = l := by
  induction l with
  | nil => simp [dedupKeepFirst]
  | cons a rest ih =>
    rw [dedupKeepFirst]
    have hfilter : rest.filter (fun x => !(x == a)) = rest := by
      apply List.filter_eq_self.mpr
      intro x hx
      have hxa : x ≠ a := by
        intro he
        exact (List.nodup_cons.mp h).1 (he ▸ hx)
      simp [hxa]
    rw [hfilter, ih (List.nodup_cons.mp h).2]

/-- Helper: a sublist of the first of three chunks. -/
theorem sublist_append_first {a c1 c2 c3 : List (List Char)}
    (h : List.Sublist a c1) : List.Sublist a (c1 ++ c2 ++ c3) := by
  rw [List.append_assoc]
  exact h.trans (List.sublist_append_left c1 (c2 ++ c3))

/-- Helper: a sublist of the middle of three chunks. -/
theorem sublist_append_middle {a c1 c2 c3 : List (List Char)}
    (h : List.Sublist a c2) : List.Sublist a (c1 ++ c2 ++ c3) := by
  rw [List.append_assoc]
  exact h.trans ((List.sublist_append_left c2 c3).trans
    (List.sublist_append_right c1 (c2 ++ c3)))

/-- Helper: a sublist of the last of three chunks. -/
theorem sublist_append_last {a c1 c2 c3 : List (List Char)}
    (h : List.Sublist a c3) : List.Sublist a (c1 ++ c2 ++ c3) := by
  rw [List.append_assoc]
  exact h.trans ((List.sublist_append_right c2 c3).trans
    (List.sublist_append_right c1 (c2 ++ c3)))

/-- Helper: the bundle of facts about one scan started from an empty
page_urls accumulator. -/
theorem scan_props (cond : List Char → Bool)
    (hc : ∀ h, cond h = true → m2ok h = true) (lu : List (List Char))
    (anchors : List (Option (List Char))) :
    (scanLoop cond lu anchors []).Nodup ∧
      (∀ x ∈ scanLoop cond lu anchors [], x ∉ lu) ∧
      (∀ x ∈ scanLoop cond lu anchors [],
        ∃ href, m2ok href = true ∧ x = normalizeUrl href) ∧
      List.Sublist (scanLoop cond lu anchors [])
        ((anchors.filterMap id).map normalizeUrl) := by
  obtain ⟨hn, hd⟩ := @scanLoop_nodup cond lu anchors [] List.nodup_nil (by simp)
  obtain ⟨ext, he, hs⟩ := @scanLoop_append_sublist cond lu anchors []
  rw [List.nil_append] at he
  refine ⟨hn, hd, ?_, ?_⟩
  · intro x hx
    rcases @scanLoop_mem cond lu anchors [] x hx with h0 | ⟨href, hcc, hxe⟩
    · exact absurd h0 (List.not_mem_nil x)
    · exact ⟨href, hc href hcc, hxe⟩
  · rw [he]
    exact hs

/-- Helper: the bundle of facts about one page iteration: no
duplicates, nothing already collected, every element a normalised
filtered href, and scan order preserved. -/
theorem processPage_props (p : PageScan) (f : Bool) (lu : List (List Char)) :
    (processPage p f lu).Nodup ∧
      (∀ x ∈ processPage p f lu, x ∉ lu) ∧
      (∀ x ∈ processPage p f lu,
        ∃ href, m2ok href = true ∧ x = normalizeUrl href) ∧
      List.Sublist (processPage p f lu) (pageCandidates p) := by
  obtain ⟨n1, d1, g1, s1⟩ := scan_props m1ok (fun h => m1ok_m2ok) lu p.anchors1
  by_cases h1e : (scanLoop m1ok lu p.anchors1 []).isEmpty = true
  · have hp1nil : scanLoop m1ok lu p.anchors1 [] = [] := List.isEmpty_iff.mp h1e
    obtain ⟨n2, d2, g2, s2⟩ := scan_props m2ok (fun h hh => hh) lu p.anchors2
    by_cases h2e : (scanLoop m2ok lu p.anchors2 []).isEmpty = true
    · have hp2nil : scanLoop m2ok lu p.anchors2 [] = [] := List.isEmpty_iff.mp h2e
      obtain ⟨n3, d3, g3, s3⟩ := scan_props m1ok (fun h => m1ok_m2ok) lu p.retryAnchors
      cases f with
      | true =>
        have heq : processPage p true lu =
            dedupKeepFirst (scanLoop m1ok lu p.retryAnchors []) := by
          simp only [processPage]
          rw [hp1nil]
          simp only [List.isEmpty_nil, eq_self_iff_true, ite_true]
          rw [hp2nil]
          simp [dedupKeepFirst]
        rw [heq, dedupKeepFirst_eq_self n3]
        exact ⟨n3, d3, g3, sublist_append_last s3⟩
      | false =>
        have heq : processPage p false lu = [] := by
          simp only [processPage]
          rw [hp1nil]
          simp only [List.isEmpty_nil, eq_self_iff_true, ite_true]
          rw [hp2nil]
          simp [dedupKeepFirst]
        rw [heq]
        exact ⟨List.nodup_nil, by simp, by simp, List.nil_sublist _⟩
    · have heq : processPage p f lu = scanLoop m2ok lu p.anchors2 [] := by
        simp only [processPage]
        rw [hp1nil]
        simp only [List.isEmpty_nil, eq_self_iff_true, ite_true]
        rw [dedupKeepFirst_eq_self n2, if_neg h2e]
      rw [heq]
      exact ⟨n2, d2, g2, sublist_append_middle s2⟩
  · have heq : processPage p f lu = scanLoop m1ok lu p.anchors1 [] := by
      simp only [processPage]
      rw [if_neg h1e, dedupKeepFirst_eq_self n1, if_neg h1e]
    rw [heq]
    exact ⟨n1, d1, g1, sublist_append_first s1⟩

/-- Helper: the page loop only extends its accumulator with fresh, good
URLs, in candidate order. -/
theorem find_listing_urls_go_props (pages : Nat → PageScan) :
    ∀ (remaining pageIdx : Nat) (acc : List (List Char)), acc.Nodup →
      ∃ ext, find_listing_urls_go pages pageIdx remaining acc = acc ++ ext ∧
        (acc ++ ext).Nodup ∧
        (∀ x ∈ ext, ∃ href, m2ok href = true ∧ x = normalizeUrl href) ∧
        List.Sublist ext (discoveryCandidates pages pageIdx remaining) := by
  intro remaining
  induction remaining with
  | zero =>
    intro pageIdx acc h1
    exact ⟨[], by simp [find_listing_urls_go], by simpa using h1, by simp,
      List.nil_sublist _⟩
  | succ r ih =>
    intro pageIdx acc h1
    by_cases hpu : (processPage (pages pageIdx) (pageIdx == 1) acc).isEmpty = true
    · refine ⟨[], ?_, by simpa using h1, by simp, List.nil_sublist _⟩
      simp [find_listing_urls_go, hpu]
    · obtain ⟨hn, hnotin, hmem, hsub⟩ :=
        processPage_props (pages pageIdx) (pageIdx == 1) acc
      have hnodup2 :
          (acc ++ processPage (pages pageIdx) (pageIdx == 1) acc).Nodup := by
        rw [List.nodup_append]
        exact ⟨h1, hn, fun x hx hy => hnotin x hy hx⟩
      obtain ⟨ext, he, hnd, hgood, hs⟩ := ih (pageIdx + 1)
        (acc ++ processPage (pages pageIdx) (pageIdx == 1) acc) hnodup2
      refine ⟨processPage (pages pageIdx) (pageIdx == 1) acc ++ ext, ?_, ?_, ?_, ?_⟩
      · rw [find_listing_urls_go, if_neg hpu, he, List.append_assoc]
      · rw [← List.append_assoc]
        exact hnd
      · intro x hx
        rcases List.mem_append.mp hx with hx | hx
        · exact hmem x hx
        · exact hgood x hx
      · rw [discoveryCandidates]
        exact List.Sublist.append hsub hs

/-- Claim C6: discovery returns a duplicate-free list; every returned
URL ends in a slash, contains a ten-plus-digit path segment and the
target host marker; and the list is an order-preserving subsequence of
the pages' candidates in scan order (DOM order within a page, pages
ascending, no re-sorting). -/
theorem discovery_url_invariants (pages : Nat → PageScan) (max_pages : Nat) :
    (find_listing_urls pages max_pages).Nodup ∧
      (∀ u ∈ find_listing_urls pages max_pages,
        u.getLast? = some '/' ∧ hasListingSeg u = true ∧
          containsSub harajHost u = true) ∧
      List.Sublist (find_listing_urls pages max_pages)
        (discoveryCandidates pages 1 max_pages) := by
  obtain ⟨ext, he, hnd, hgood, hs⟩ :=
    find_listing_urls_go_props pages max_pages 1 [] List.nodup_nil
  rw [List.nil_append] at he hnd
  unfold find_listing_urls
  rw [he]
  refine ⟨hnd, ?_, hs⟩
  intro u hu
  obtain ⟨href, hok, hue⟩ := hgood u hu
  rw [hue]
  exact goodUrl_of_m2ok hok

/-- Helper: starting the page loop after j already-processed pages, it
runs exactly the pages up to some stop index k: every processed page
contributed something, and an early stop is explained by the next page
contributing nothing. -/
theorem find_listing_urls_go_runPages (pages : Nat → PageScan) :
    ∀ (r j : Nat), ∃ k, j ≤ k ∧ k ≤ j + r ∧
      find_listing_urls_go pages (j + 1) r (runPages pages j) =
        runPages pages k ∧
      (∀ i, j < i → i ≤ k →
        processPage (pages i) (i == 1) (runPages pages (i - 1)) ≠ []) ∧
      (k < j + r →
        processPage (pages (k + 1)) (k + 1 == 1) (runPages pages k) = []) := by
  intro r
  induction r with
  | zero =>
    intro j
    refine ⟨j, Nat.le_refl j, by omega, rfl, ?_, ?_⟩
    · intro i h1 h2
      omega
    · intro h
      omega
  | succ r ih =>
    intro j
    by_cases hpu :
        (processPage (pages (j + 1)) (j + 1 == 1) (runPages pages j)).isEmpty = true
    · refine ⟨j, Nat.le_refl j, by omega, ?_, ?_, ?_⟩
      · rw [find_listing_urls_go, if_pos hpu]
      · intro i h1 h2
        omega
      · intro _
        exact List.isEmpty_iff.mp hpu
    · obtain ⟨k, hk1, hk2, hk3, hk4, hk5⟩ := ih (j + 1)
      refine ⟨k, by omega, by omega, ?_, ?_, ?_⟩
      · rw [find_listing_urls_go, if_neg hpu]
        have hstep :
            runPages pages j ++
                processPage (pages (j + 1)) (j + 1 == 1) (runPages pages j) =
              runPages pages (j + 1) := rfl
        rw [hstep]
        exact hk3
      · intro i h1 h2
        by_cases hij : i = j + 1
        · subst hij
          have : j + 1 - 1 = j := by omega
          rw [this]
          exact fun hnil => hpu (by rw [hnil]; rfl)
        · exact hk4 i (by omega) h2
      · intro h
        exact hk5 (by omega)

/-- Claim C7: discovery processes pages in order and stops either after
max_pages pages or at the first page contributing zero new URLs: the
result equals the unconditional accumulation over exactly the first k
pages, each of which contributed, and k < max_pages only when page k+1
contributes nothing; on non-first pages the retry anchors are never
consulted, while on the first page an empty pair of scans is answered
by exactly one retry re-scan. -/
theorem discovery_pagination_stop (pages : Nat → PageScan) (max_pages : Nat) :
    (∃ k, k ≤ max_pages ∧
      find_listing_urls pages max_pages = runPages pages k ∧
      (∀ i, 1 ≤ i → i ≤ k →
        processPage (pages i) (i == 1) (runPages pages (i - 1)) ≠ []) ∧
      (k < max_pages →
        processPage (pages (k + 1)) (k + 1 == 1) (runPages pages k) = [])) ∧
    (∀ (p : PageScan) (acc : List (List Char)),
      processPage p false acc =
        processPage { p with retryAnchors := [] } false acc) ∧
    (∀ (p : PageScan) (acc : List (List Char)),
      scanLoop m1ok acc p.anchors1 [] = [] →
      scanLoop m2ok acc p.anchors2 [] = [] →
      processPage p true acc =
        dedupKeepFirst (scanLoop m1ok acc p.retryAnchors [])) := by
  refine ⟨?_, ?_, ?_⟩
  · obtain ⟨k, hk1, hk2, hk3, hk4, hk5⟩ :=
      find_listing_urls_go_runPages pages max_pages 0
    refine ⟨k, by omega, hk3, ?_, ?_⟩
    · intro i h1 h2
      exact hk4 i (by omega) h2
    · intro h
      exact hk5 (by omega)
  · intro p acc
    rfl
  · intro p acc h1 h2
    simp only [processPage]
    rw [h1]
    simp only [List.isEmpty_nil, eq_self_iff_true, ite_true]
    rw [h2]
    simp [dedupKeepFirst]
